import Mathlib

/-!
Verification of the multi-query RAG pipeline notebook: shallow embedding of
the Query Expander (LineListOutputParser over the multi-query prompt), the
Step-Back Generator, the Web Search Collector (serial loop with a fixed
5-unit sleep after each request) and the Refine Summarizer, together with
theorems settling the specified properties.
-/

/-- A search-result document: the notebook wraps each raw search result as
Document(page_content=search.run(query)). -/
structure Document where
  page_content : String
deriving Repr, DecidableEq

/-- Python str.isspace for the characters Python strip removes: space, tab,
newline, carriage return, vertical tab, form feed. -/
def pyIsSpace (c : Char) : Bool :=
  c = ' ' || c = '\t' || c = '\n' || c = '\r' || c = '\x0b' || c = '\x0c'

/-- Python text.strip(): remove leading and trailing whitespace of the whole
character sequence; interior characters are untouched. -/
def pyStripChars (cs : List Char) : List Char :=
  ((cs.dropWhile pyIsSpace).reverse.dropWhile pyIsSpace).reverse

/-- Python text.split-on-newline semantics: splitting the empty sequence
yields one empty piece, every newline character opens a new piece, and empty
pieces between consecutive newlines are kept. -/
def splitNl : List Char → List (List Char)
  | [] => [[]]
  | c :: cs =>
    if c = '\n' then [] :: splitNl cs
    else
      match splitNl cs with
      | [] => [[c]]
      | h :: t => (c :: h) :: t

/-- Join pieces back with a newline between consecutive pieces (inverse of
splitNl, used to state that the parser loses no text). -/
def joinNl : List (List Char) → List Char
  | [] => []
  | [l] => l
  | l :: l2 :: ls => l ++ '\n' :: joinNl (l2 :: ls)

/-- LineListOutputParser.parse from the notebook: lines equal
text.strip().split on the newline character; each resulting piece, empty or
not, untrimmed, becomes one element. -/
def LineListOutputParser.parse (text : String) : List String :=
  (splitNl (pyStripChars text.data)).map String.mk

/-- QUERY_PROMPT from the notebook with the question substituted for the
placeholder. -/
def QUERY_PROMPT (question : String) : String :=
  "As an AI language model assistant, your primary objective is to enhance the user\x27s ability to retrieve pertinent documents from a vector database through a distance-based \n                similarity search. To achieve this, create three distinct versions of the user\x27s original question, focusing on using different wordings for each version. \n                Each version should offer a unique perspective or rephrasing, aiming to capture a broader range of potential search results by overcoming the inherent limitations of keyword-based searches in vector databases. Ensure that these alternative questions \n                are diverse in their phrasing and focus, yet remain true to the essence of the original query. Present the rephrased questions one after the other, separated by newlines.\n                Original question: " ++ question

/-- The multiquery chain QUERY_PROMPT | model | LineListOutputParser: the
Language Model Client is a parameter mapping the rendered prompt to its raw
text response, and the response is parsed into query variants. -/
def expand (lmc : String → String) (question : String) : List String :=
  LineListOutputParser.parse (lmc (QUERY_PROMPT question))

/-- The step-back chat prompt from the notebook as a list of role-content
message pairs: the fixed system instruction, the two fixed few-shot example
pairs, then the target question. -/
def stepBackMessages (question : String) : List (String × String) :=
  [("system", "You are an expert at world knowledge. Your task is to step back and paraphrase a question to one more generic step-back question, which is easier to answer and gather foundational knowledge. Ensure only ONE generic step-back question is returned. ONLY RETURN step-back question.Here are a few examples:"),
   ("human", "Could the members of The Police perform lawful arrests?"),
   ("ai", "what can the members of The Police do?"),
   ("human", "Jan Sindel’s was born in what country?"),
   ("ai", "what is Jan Sindel’s personal history?"),
   ("user", question)]

/-- The question_gen chain prompt | model | StrOutputParser: StrOutputParser
returns the message content of the model response unchanged, so the result is
exactly the raw response text for the step-back messages. -/
def stepBack (lmc : List (String × String) → String) (question : String) : String :=
  lmc (stepBackMessages question)

/-- Modelled from the spec: question_gen.batch is third-party library code
not present in the repository; per the spec it applies the single step-back
form independently to each input, preserving input order in the output. -/
def stepBackAll (lmc : List (String × String) → String) (questions : List String) : List String :=
  questions.map (stepBack lmc)

/-- Observable events of the search loop: one search request per query and
one sleep call of a fixed number of time units. -/
inductive Event where
  | searchReq (query : String)
  | sleep (units : Nat)
deriving Repr, DecidableEq

/-- The search loop from the notebook: for each query append one Document
wrapping the full text the provider returns for that query, then sleep 5
time units, then move to the next query. Returns the collected documents
and the ordered trace of requests and sleeps. -/
def collect (search : String → String) : List String → List Document × List Event
  | [] => ([], [])
  | q :: qs =>
    let rest := collect search qs
    (Document.mk (search q) :: rest.1, Event.searchReq q :: Event.sleep 5 :: rest.2)

/-- Queries of the trace, in the order their search requests were issued. -/
def requestLog (es : List Event) : List String :=
  es.filterMap fun e =>
    match e with
    | Event.searchReq q => some q
    | Event.sleep _ => none

/-- Number of sleep calls in the trace. -/
def sleepCount (es : List Event) : Nat :=
  es.countP fun e =>
    match e with
    | Event.searchReq _ => false
    | Event.sleep _ => true

/-- Total time units spent sleeping in the trace. -/
def sleepTotal (es : List Event) : Nat :=
  (es.map fun e =>
    match e with
    | Event.searchReq _ => 0
    | Event.sleep n => n).sum

/-- Error raised when the Refine Summarizer receives no documents. -/
inductive RefineError where
  | EmptyInput
deriving Repr, DecidableEq

/-- Modelled from the spec: the seed step of the refine chain loaded by
load_summarize_chain with chain_type refine is third-party library code not
present in the repository; per the spec it prompts the Language Model Client
for an initial summary of the first document content alone, through a seed
prompt builder sp. -/
def seedSummary (lmc : String → String) (sp : String → String) (d : Document) : String :=
  lmc (sp d.page_content)

/-- Modelled from the spec: one refine step prompts the Language Model
Client with the current running summary and the next document content,
through a refine prompt builder rp, and the response replaces the running
summary. -/
def refineStep (lmc : String → String) (rp : String → String → String)
    (summary : String) (d : Document) : String :=
  lmc (rp summary d.page_content)

/-- Modelled from the spec: the refine chain fails with EmptyInput on zero
documents; otherwise it seeds the running summary from the first document
and folds the refine step over the remaining documents left to right,
returning the final running summary. -/
def refine (lmc : String → String) (sp : String → String)
    (rp : String → String → String) : List Document → Except RefineError String
  | [] => Except.error RefineError.EmptyInput
  | d :: ds => Except.ok (ds.foldl (refineStep lmc rp) (seedSummary lmc sp d))

/-- The state machine of the spec for the Refine Summarizer, as a relation:
RefineRun step s ds out holds when, starting with running summary s,
processing the remaining documents ds one by one (each step replacing the
running summary) terminates with final summary out. -/
inductive RefineRun (step : String → Document → String) : String → List Document → String → Prop
  | done (s : String) : RefineRun step s [] s
  | more (s : String) (d : Document) (ds : List Document) (out : String) :
      RefineRun step (step s d) ds out → RefineRun step s (d :: ds) out

/-- queries_to_search from the notebook: the expanded query variants
followed by the step-back answers generated from those same variants. -/
def pipelineQueries (lmc : String → String) (lmcChat : List (String × String) → String)
    (question : String) : List String :=
  expand lmc question ++ stepBackAll lmcChat (expand lmc question)

/-- The end-to-end pipeline of the notebook: expand the question, generate
one step-back question per variant, search every query in order collecting
one document each, then refine-summarize the collected documents. Returns
the collected documents and the final summary. -/
def pipeline (lmc : String → String) (lmcChat : List (String × String) → String)
    (search : String → String) (sp : String → String) (rp : String → String → String)
    (question : String) : List Document × Except RefineError String :=
  let docs := (collect search (pipelineQueries lmc lmcChat question)).1
  (docs, refine lmc sp rp docs)

theorem splitNl_ne_nil (cs : List Char) : splitNl cs ≠ [] := by
  cases cs with
  | nil => simp [splitNl]
  | cons c cs =>
    simp only [splitNl]
    split
    · simp
    · split <;> simp

theorem newline_not_mem_splitNl (cs : List Char) (l : List Char) (h : l ∈ splitNl cs) :
    '\n' ∉ l := by
  induction cs generalizing l with
  | nil =>
    simp [splitNl] at h
    simp [h]
  | cons c cs ih =>
    simp only [splitNl] at h
    by_cases hc : c = '\n'
    · rw [if_pos hc] at h
      rcases List.mem_cons.mp h with h1 | h2
      · simp [h1]
      · exact ih l h2
    · rw [if_neg hc] at h
      cases hs : splitNl cs with
      | nil => exact absurd hs (splitNl_ne_nil cs)
      | cons hd tl =>
        rw [hs] at h
        rcases List.mem_cons.mp h with h1 | h2
        · subst h1
          intro hmem
          rcases List.mem_cons.mp hmem with h3 | h4
          · exact hc h3.symm
          · exact ih hd (by rw [hs]; exact List.mem_cons_self _ _) h4
        · exact ih l (by rw [hs]; exact List.mem_cons_of_mem _ h2)

theorem length_splitNl (cs : List Char) : (splitNl cs).length = cs.count '\n' + 1 := by
  induction cs with
  | nil => simp [splitNl]
  | cons c cs ih =>
    by_cases hc : c = '\n'
    · simp [splitNl, if_pos hc, List.count_cons, hc, ih]
    · simp only [splitNl, if_neg hc]
      cases hs : splitNl cs with
      | nil => exact absurd hs (splitNl_ne_nil cs)
      | cons hd tl =>
        rw [hs] at ih
        simp [List.count_cons, Ne.symm hc, ← ih]

theorem joinNl_splitNl (cs : List Char) : joinNl (splitNl cs) = cs := by
  induction cs with
  | nil => simp [splitNl, joinNl]
  | cons c cs ih =>
    by_cases hc : c = '\n'
    · simp only [splitNl, if_pos hc]
      cases hs : splitNl cs with
      | nil => exact absurd hs (splitNl_ne_nil cs)
      | cons hd tl =>
        rw [hs] at ih
        subst hc
        simp [joinNl, ih]
    · simp only [splitNl, if_neg hc]
      cases hs : splitNl cs with
      | nil => exact absurd hs (splitNl_ne_nil cs)
      | cons hd tl =>
        rw [hs] at ih
        cases tl with
        | nil => simp [joinNl] at ih ⊢; exact ih
        | cons t2 ts => simp [joinNl] at ih ⊢; simp [ih]

theorem RefineRun_iff_foldl (step : String → Document → String) (s : String)
    (ds : List Document) (out : String) :
    RefineRun step s ds out ↔ ds.foldl step s = out := by
  constructor
  · intro h
    induction h with
    | done s => rfl
    | more s d ds out _ ih => simpa using ih
  · intro h
    induction ds generalizing s with
    | nil =>
      simp at h
      subst h
      exact RefineRun.done s
    | cons d ds ih =>
      exact RefineRun.more s d ds out (ih (step s d) (by simpa using h))

/-- C1: for every non-empty document sequence, refine seeds the running
summary from the first document alone and then performs a strict
left-to-right fold, each step replacing the running summary with the model
revision for the next document, returning the summary after the last
document; for a one-document input the result is the seed summary with no
refinement step executed. -/
theorem refine_left_fold (lmc : String → String) (sp : String → String)
    (rp : String → String → String) (d : Document) (ds : List Document) (out : String) :
    (refine lmc sp rp (d :: ds) = Except.ok out ↔
      RefineRun (refineStep lmc rp) (seedSummary lmc sp d) ds out) ∧
    refine lmc sp rp [d] = Except.ok (seedSummary lmc sp d) := by
  constructor
  · rw [RefineRun_iff_foldl]
    simp [refine]
  · simp [refine]

/-- C2: refine applied to the empty document sequence fails with the
EmptyInput error and returns no summary. -/
theorem refine_empty_input (lmc : String → String) (sp : String → String)
    (rp : String → String → String) :
    refine lmc sp rp [] = Except.error RefineError.EmptyInput := rfl

theorem collect_trace (search : String → String) (qs : List String) :
    (collect search qs).2 = qs.flatMap fun q => [Event.searchReq q, Event.sleep 5] := by
  induction qs with
  | nil => simp [collect]
  | cons q qs ih => simp [collect, ih]

theorem sleepTotal_collect (search : String → String) (qs : List String) :
    sleepTotal (collect search qs).2 = qs.length * 5 := by
  induction qs with
  | nil => simp [collect, sleepTotal]
  | cons q qs ih =>
    simp [collect, sleepTotal] at ih ⊢
    omega

theorem sleepCount_collect (search : String → String) (qs : List String) :
    sleepCount (collect search qs).2 = qs.length := by
  induction qs with
  | nil => simp [collect, sleepCount]
  | cons q qs ih =>
    simp [collect, sleepCount] at ih ⊢
    omega

/-- C6: collect issues exactly one search request per query, in input order
and with duplicates repeated, and returns exactly one Document per query in
matching order, each wrapping the full text the provider returned for that
query. -/
theorem collect_one_request_per_query (search : String → String) (qs : List String) :
    (collect search qs).1 = qs.map (fun q => Document.mk (search q)) ∧
    requestLog (collect search qs).2 = qs ∧
    (collect search qs).1.length = qs.length := by
  refine ⟨?_, ?_, ?_⟩
  · induction qs with
    | nil => simp [collect]
    | cons q qs ih => simp [collect, ih]
  · induction qs with
    | nil => simp [collect, requestLog]
    | cons q qs ih => simp [collect, requestLog] at ih ⊢; exact ih
  · induction qs with
    | nil => simp [collect]
    | cons q qs ih => simp [collect, ih]

/-- C7: collect serializes its requests, sleeping 5 time units after each
search request before the next one is issued, so its total elapsed time is
at least the total sleep time, which is at least five times one less than
the number of queries. -/
theorem collect_rate_limited (search : String → String) (qs : List String) :
    ((collect search qs).2 = qs.flatMap fun q => [Event.searchReq q, Event.sleep 5]) ∧
    (qs.length - 1) * 5 ≤ sleepTotal (collect search qs).2 := by
  refine ⟨collect_trace search qs, ?_⟩
  rw [sleepTotal_collect]
  omega

/-- C9: for a non-empty query sequence, collect calls the 5-unit sleep
exactly once per query, including after the final request, so the total
delay is exactly five times the number of queries, strictly more than the
minimum needed to separate consecutive requests. -/
theorem collect_sleeps_after_every_request (search : String → String) (qs : List String)
    (h : qs ≠ []) :
    sleepCount (collect search qs).2 = qs.length ∧
    sleepTotal (collect search qs).2 = qs.length * 5 ∧
    (qs.length - 1) * 5 < qs.length * 5 := by
  refine ⟨sleepCount_collect search qs, sleepTotal_collect search qs, ?_⟩
  have : qs.length ≠ 0 := by
    intro h0
    exact h (List.length_eq_zero.mp h0)
  omega

/-- Witness for C9 at the one-query input. -/
theorem collect_sleeps_after_every_request_witness :
    sleepCount (collect (fun _ => "r") ["a"]).2 = 1 ∧
    sleepTotal (collect (fun _ => "r") ["a"]).2 = 1 * 5 ∧
    (1 - 1) * 5 < 1 * 5 :=
  collect_sleeps_after_every_request (fun _ => "r") ["a"] (by simp)

/-- C8: stepBackAll returns exactly one output per input question, in
matching order, and the output at every position is the single-question
stepBack applied to the input at that same position alone, so no output
depends on any other question of the batch. -/
theorem stepBackAll_pointwise (lmc : List (String × String) → String)
    (qs : List String) (i : Nat) (h : i < qs.length) :
    (stepBackAll lmc qs).length = qs.length ∧
    (stepBackAll lmc qs).get ⟨i, by simpa [stepBackAll] using h⟩ =
      stepBack lmc (qs.get ⟨i, h⟩) := by
  refine ⟨by simp [stepBackAll], ?_⟩
  simp [stepBackAll]

/-- Witness for C8 at a concrete two-question batch. -/
theorem stepBackAll_pointwise_witness :
    (stepBackAll (fun _ => "x") ["a", "b"]).length = ["a", "b"].length ∧
    (stepBackAll (fun _ => "x") ["a", "b"]).get
        ⟨0, by simp [stepBackAll]⟩ =
      stepBack (fun _ => "x") (["a", "b"].get ⟨0, Nat.zero_lt_two⟩) :=
  stepBackAll_pointwise (fun _ => "x") ["a", "b"] 0 Nat.zero_lt_two

/-- Counterexample to C4: on the model response with an interior empty line
and a line with trailing whitespace, expand keeps the empty line as an empty
element and does not trim the individual lines. -/
theorem expand_trim_claim_cex :
    expand (fun _ => " one \n\ntwo ") "Q" = ["one ", "", "two"] ∧
    ¬ (∀ l, l ∈ expand (fun _ => " one \n\ntwo ") "Q" →
        l ≠ "" ∧ String.mk (pyStripChars l.data) = l) := by
  constructor
  · decide
  · decide

/-- C4 (amended): every element of expand has no embedded newline, and the
number of elements is exactly one more than the number of newlines in the
stripped response, however many lines that is; moreover joining the elements
back with newlines reproduces the stripped response exactly, so interior
empty lines are kept as empty elements and individual lines are not trimmed
beyond the strip of the response as a whole. -/
theorem expand_lines_amended (lmc : String → String) (q : String) :
    (∀ l, l ∈ expand lmc q → l.data.count '\n' = 0) ∧
    (expand lmc q).length = (pyStripChars (lmc (QUERY_PROMPT q)).data).count '\n' + 1 ∧
    joinNl ((expand lmc q).map String.data) = pyStripChars (lmc (QUERY_PROMPT q)).data := by
  refine ⟨?_, ?_, ?_⟩
  · intro l hl
    simp [expand, LineListOutputParser.parse, List.mem_map] at hl
    obtain ⟨m, hm, rfl⟩ := hl
    exact List.count_eq_zero.mpr (newline_not_mem_splitNl _ m hm)
  · simp [expand, LineListOutputParser.parse, length_splitNl]
  · have h : (String.data ∘ String.mk) = id := rfl
    simp only [expand, LineListOutputParser.parse]
    rw [List.map_map, h, List.map_id, joinNl_splitNl]

/-- Witness for the amended C4 at a concrete stub response. -/
theorem expand_lines_amended_witness :
    "a".data.count '\n' = 0 ∧ (expand (fun _ => "a\nb") "Q").length = 2 :=
  ⟨(expand_lines_amended (fun _ => "a\nb") "Q").1 "a" (by decide),
   by rw [(expand_lines_amended (fun _ => "a\nb") "Q").2.1]; decide⟩

/-- Counterexample to C5: with an empty model response, expand returns a
one-element sequence holding the empty string, not the empty sequence. -/
theorem expand_empty_response_cex :
    expand (fun _ => "") "Q" = [""] ∧ expand (fun _ => "") "Q" ≠ [] := by
  constructor
  · decide
  · decide

/-- C5 (amended): if the Language Model Client returns empty response text,
expand returns the one-element sequence holding the empty string; no error
is raised. -/
theorem expand_empty_response_amended (lmc : String → String) (q : String)
    (h : lmc (QUERY_PROMPT q) = "") :
    expand lmc q = [""] := by
  simp [expand, LineListOutputParser.parse, h, pyStripChars, splitNl]

/-- Witness for the amended C5 at the constant-empty stub. -/
theorem expand_empty_response_amended_witness :
    expand (fun _ => "") "Q" = [""] :=
  expand_empty_response_amended (fun _ => "") "Q" rfl

/-- C10: the step-back answer is the raw model response with no trimming,
newline removal or other post-processing, and it is passed verbatim as one
search query: whatever response text the model returns for a variant of the
question appears unchanged among the pipeline queries, and collect issues
one search request with exactly that string. -/
theorem stepBack_verbatim (lmc : String → String)
    (lmcChat : List (String × String) → String) (search : String → String)
    (q v r : String) (hv : v ∈ expand lmc q) (hr : lmcChat (stepBackMessages v) = r) :
    stepBack lmcChat v = r ∧
    r ∈ pipelineQueries lmc lmcChat q ∧
    Event.searchReq r ∈ (collect search (pipelineQueries lmc lmcChat q)).2 := by
  have h1 : stepBack lmcChat v = r := hr
  have h2 : r ∈ pipelineQueries lmc lmcChat q := by
    unfold pipelineQueries
    refine List.mem_append_right _ ?_
    rw [← h1]
    exact List.mem_map_of_mem _ hv
  refine ⟨h1, h2, ?_⟩
  rw [collect_trace]
  simpa [List.mem_flatMap] using h2

/-- Witness for C10: a multi-line untrimmed step-back response reaches the
search provider verbatim. -/
theorem stepBack_verbatim_witness :
    stepBack (fun _ => " sb?\n\n(note) ") "v1" = " sb?\n\n(note) " ∧
    " sb?\n\n(note) " ∈ pipelineQueries (fun _ => "v1") (fun _ => " sb?\n\n(note) ") "Q" ∧
    Event.searchReq " sb?\n\n(note) " ∈
      (collect (fun _ => "r")
        (pipelineQueries (fun _ => "v1") (fun _ => " sb?\n\n(note) ") "Q")).2 :=
  stepBack_verbatim (fun _ => "v1") (fun _ => " sb?\n\n(note) ") (fun _ => "r") "Q" "v1"
    " sb?\n\n(note) " (by decide) rfl

/-- C3: when the expander yields exactly three variants, the pipeline
searches exactly six queries, the three variants first and then their three
step-back questions in matching order; it collects exactly six documents in
that same order and its final output is the summary produced by the last
refine step, applied to the sixth collected document. -/
theorem pipeline_end_to_end (lmc : String → String)
    (lmcChat : List (String × String) → String) (search : String → String)
    (sp : String → String) (rp : String → String → String)
    (q v1 v2 v3 : String) (h : expand lmc q = [v1, v2, v3]) :
    pipelineQueries lmc lmcChat q =
      [v1, v2, v3, stepBack lmcChat v1, stepBack lmcChat v2, stepBack lmcChat v3] ∧
    (pipeline lmc lmcChat search sp rp q).1 =
      [Document.mk (search v1), Document.mk (search v2), Document.mk (search v3),
       Document.mk (search (stepBack lmcChat v1)),
       Document.mk (search (stepBack lmcChat v2)),
       Document.mk (search (stepBack lmcChat v3))] ∧
    (pipeline lmc lmcChat search sp rp q).1.length = 6 ∧
    (pipeline lmc lmcChat search sp rp q).2 =
      Except.ok (refineStep lmc rp
        (List.foldl (refineStep lmc rp)
          (seedSummary lmc sp (Document.mk (search v1)))
          [Document.mk (search v2), Document.mk (search v3),
           Document.mk (search (stepBack lmcChat v1)),
           Document.mk (search (stepBack lmcChat v2))])
        (Document.mk (search (stepBack lmcChat v3)))) := by
  have hq : pipelineQueries lmc lmcChat q =
      [v1, v2, v3, stepBack lmcChat v1, stepBack lmcChat v2, stepBack lmcChat v3] := by
    simp [pipelineQueries, h, stepBackAll]
  refine ⟨hq, ?_, ?_, ?_⟩ <;> simp [pipeline, hq, collect, refine]

/-- Witness for C3 at concrete stubs: the expansion stub returns three fixed
lines, the step-back stub one fixed line per call, and the search stub one
fixed document per query. -/
theorem pipeline_end_to_end_witness :
    pipelineQueries (fun _ => "A\nB\nC") (fun _ => "S") "Q" =
      ["A", "B", "C", stepBack (fun _ => "S") "A", stepBack (fun _ => "S") "B",
       stepBack (fun _ => "S") "C"] ∧
    (pipeline (fun _ => "A\nB\nC") (fun _ => "S") (fun _ => "R")
        (fun d => d) (fun s d => s ++ d) "Q").1 =
      [Document.mk "R", Document.mk "R", Document.mk "R",
       Document.mk "R", Document.mk "R", Document.mk "R"] ∧
    (pipeline (fun _ => "A\nB\nC") (fun _ => "S") (fun _ => "R")
        (fun d => d) (fun s d => s ++ d) "Q").1.length = 6 ∧
    (pipeline (fun _ => "A\nB\nC") (fun _ => "S") (fun _ => "R")
        (fun d => d) (fun s d => s ++ d) "Q").2 =
      Except.ok (refineStep (fun _ => "A\nB\nC") (fun s d => s ++ d)
        (List.foldl (refineStep (fun _ => "A\nB\nC") (fun s d => s ++ d))
          (seedSummary (fun _ => "A\nB\nC") (fun d => d) (Document.mk "R"))
          [Document.mk "R", Document.mk "R", Document.mk "R", Document.mk "R"])
        (Document.mk "R")) :=
  pipeline_end_to_end (fun _ => "A\nB\nC") (fun _ => "S") (fun _ => "R")
    (fun d => d) (fun s d => s ++ d) "Q" "A" "B" "C" (by decide)
